import Mathlib

/-!
Verification of the in-memory patient record store in `src/main.go` of the
`dummy-register` repository.  The Go program keeps a shared map
`patients : map[int]*Patient`, a counter seeded at 1 and a mutex `mu`; HTTP
handlers implement create/get/list/update/delete.  This file gives a shallow
embedding of that code: the map becomes an association list with distinct
keys, Go `int` becomes `Int` (the identity counter starts at 1 and only
increments, so 64-bit overflow is unreachable in any practical execution and
is not modelled; `strconv.Atoi`, where the 64-bit range genuinely shapes the
result, is modelled with explicit clamping constants), handlers become pure
functions from state and decoded input to state and response, and the
`crypto/md5` / `encoding/hex` calls are modelled by a full MD5
implementation (RFC 1321, identical to Go's `md5.Sum`) over the UTF-8 bytes
of the string.
-/

/-- Go struct `Patient` (src/main.go lines 18–23): ID, Name, Age, Password. -/
structure Patient where
  id : Int
  name : String
  age : Int
  password : String
deriving Repr, DecidableEq

/-- The zero value of the Go `Patient` struct, which `var p Patient` starts
from and which survives when `json.Unmarshal`'s error is ignored. -/
def zeroPatient : Patient := { id := 0, name := "", age := 0, password := "" }

/-- Go's `json.Unmarshal(body, &p)` with the error ignored (lines 95, 139):
a body that decodes yields its struct, a malformed body leaves `p` at the
zero value. -/
def decodeOrZero : Option Patient → Patient
  | some p => p
  | none => zeroPatient

/-- Assignment `patients[k] = &p` into the Go map (lines 110, and the writes
through the `*Patient` pointer in `updatePatient`): overwrite the binding of
`k` if present, otherwise add it. -/
def mapSet : List (Int × Patient) → Int → Patient → List (Int × Patient)
  | [], k, v => [(k, v)]
  | (k2, v2) :: rest, k, v =>
    if k2 = k then (k, v) :: rest else (k2, v2) :: mapSet rest k v

/-- Go map lookup `p, exists := patients[id]` (lines 120, 132, 156). -/
def mapGet : List (Int × Patient) → Int → Option Patient
  | [], _ => none
  | (k2, v2) :: rest, k => if k2 = k then some v2 else mapGet rest k

/-- Go `delete(patients, id)` (line 162).  Go map keys are unique, so
removing every binding of `k` from the association list coincides with
removing the one binding. -/
def mapErase : List (Int × Patient) → Int → List (Int × Patient)
  | [], _ => []
  | (k2, v2) :: rest, k =>
    if k2 = k then mapErase rest k else (k2, v2) :: mapErase rest k

/-- Character class `[A-Z]` of the name regex. -/
def isUpperAZ (c : Char) : Bool := 65 ≤ c.toNat && c.toNat ≤ 90

/-- Character class `[a-z]` of the name regex. -/
def isLowerAZ (c : Char) : Bool := 97 ≤ c.toNat && c.toNat ≤ 122

/-- Character class `\s` of Go's regexp package (RE2): `[\t\n\f\r ]`. -/
def isSpaceRE2 (c : Char) : Bool :=
  c.toNat = 9 || c.toNat = 10 || c.toNat = 12 || c.toNat = 13 || c.toNat = 32

/-- Transition function of the deterministic automaton for the anchored
regex `^[A-Z][a-z]+(?:\s[A-Z][a-z]+)*$` (line 170).  State 0 expects the
upper-case letter starting a word, state 1 expects the first lower-case
letter of a word, state 2 (the only accepting state) is inside the
lower-case run, and state 3 is the dead state.  The classes `[a-z]`, `\s`
and `[A-Z]` are pairwise disjoint, so this automaton is exactly the
regex. -/
def nameStep (st : Nat) (c : Char) : Nat :=
  if st = 0 then (if isUpperAZ c then 1 else 3)
  else if st = 1 then (if isLowerAZ c then 2 else 3)
  else if st = 2 then
    (if isLowerAZ c then 2 else if isSpaceRE2 c then 0 else 3)
  else 3

/-- `validatePatientName` (src/main.go lines 169–172): match the name
against `^[A-Z][a-z]+(?:\s[A-Z][a-z]+)*$`. -/
def validatePatientName (name : String) : Bool :=
  name.data.foldl nameStep 0 = 2

/-- UTF-8 encoding of one character, byte values as `Nat`; `[]byte(s)` in Go
is the UTF-8 encoding of the string. -/
def utf8Bytes (c : Char) : List Nat :=
  let n := c.toNat
  if n < 128 then [n]
  else if n < 2048 then [192 + n / 64, 128 + n % 64]
  else if n < 65536 then
    [224 + n / 4096, 128 + (n / 64) % 64, 128 + n % 64]
  else
    [240 + n / 262144, 128 + (n / 4096) % 64, 128 + (n / 64) % 64, 128 + n % 64]

/-- The byte sequence `[]byte(s)` of a Go string. -/
def strBytes (s : String) : List Nat := (s.data.map utf8Bytes).flatten

/-- Bitwise complement on 32-bit words represented as `Nat` below `2^32`. -/
def not32 (x : Nat) : Nat := Nat.xor x 4294967295

/-- Left-rotation of a 32-bit word by `s` places. -/
def rotl32 (x s : Nat) : Nat :=
  Nat.lor ((x <<< s) % 4294967296) (x >>> (32 - s))

/-- The 64 MD5 sine-table constants `K[i] = floor(2^32 * |sin(i+1)|)`
(RFC 1321), as used by Go's `crypto/md5`. -/
def md5K : List Nat :=
  [3614090360, 3905402710, 606105819, 3250441966,
   4118548399, 1200080426, 2821735955, 4249261313,
   1770035416, 2336552879, 4294925233, 2304563134,
   1804603682, 4254626195, 2792965006, 1236535329,
   4129170786, 3225465664, 643717713, 3921069994,
   3593408605, 38016083, 3634488961, 3889429448,
   568446438, 3275163606, 4107603335, 1163531501,
   2850285829, 4243563512, 1735328473, 2368359562,
   4294588738, 2272392833, 1839030562, 4259657740,
   2763975236, 1272893353, 4139469664, 3200236656,
   681279174, 3936430074, 3572445317, 76029189,
   3654602809, 3873151461, 530742520, 3299628645,
   4096336452, 1126891415, 2878612391, 4237533241,
   1700485571, 2399980690, 4293915773, 2240044497,
   1873313359, 4264355552, 2734768916, 1309151649,
   4149444226, 3174756917, 718787259, 3951481745]

/-- The 64 per-round left-rotation amounts of MD5 (RFC 1321). -/
def md5S : List Nat :=
  [7, 12, 17, 22, 7, 12, 17, 22, 7, 12, 17, 22, 7, 12, 17, 22,
   5, 9, 14, 20, 5, 9, 14, 20, 5, 9, 14, 20, 5, 9, 14, 20,
   4, 11, 16, 23, 4, 11, 16, 23, 4, 11, 16, 23, 4, 11, 16, 23,
   6, 10, 15, 21, 6, 10, 15, 21, 6, 10, 15, 21, 6, 10, 15, 21]

/-- Running state (A, B, C, D) of the MD5 compression function. -/
structure MD5State where
  a : Nat
  b : Nat
  c : Nat
  d : Nat
deriving Repr, DecidableEq

/-- One of the 64 operations of the MD5 compression function on a 16-word
message block `m` (RFC 1321; this is the loop Go's `crypto/md5` block
function unrolls). -/
def md5Step (m : List Nat) (st : MD5State) (i : Nat) : MD5State :=
  let fg :=
    if i < 16 then
      (Nat.lor (Nat.land st.b st.c) (Nat.land (not32 st.b) st.d), i)
    else if i < 32 then
      (Nat.lor (Nat.land st.b st.d) (Nat.land st.c (not32 st.d)), (5 * i + 1) % 16)
    else if i < 48 then
      (Nat.xor st.b (Nat.xor st.c st.d), (3 * i + 5) % 16)
    else
      (Nat.xor st.c (Nat.lor st.b (not32 st.d)), (7 * i) % 16)
  let tmp := (st.a + fg.1 + md5K.getD i 0 + m.getD fg.2 0) % 4294967296
  { a := st.d, d := st.c, c := st.b,
    b := (st.b + rotl32 tmp (md5S.getD i 0)) % 4294967296 }

/-- MD5 compression of one 16-word block into the chaining state. -/
def md5Block (st : MD5State) (m : List Nat) : MD5State :=
  let r := (List.range 64).foldl (md5Step m) st
  { a := (st.a + r.a) % 4294967296, b := (st.b + r.b) % 4294967296,
    c := (st.c + r.c) % 4294967296, d := (st.d + r.d) % 4294967296 }

/-- Little-endian byte decomposition of `n` into `count` bytes. -/
def leBytes : Nat → Nat → List Nat
  | _, 0 => []
  | n, k + 1 => (n % 256) :: leBytes (n / 256) k

/-- MD5 padding: append `0x80`, zero bytes up to 56 mod 64, then the bit
length as a 64-bit little-endian quantity (RFC 1321). -/
def md5Pad (msg : List Nat) : List Nat :=
  let len := msg.length
  msg ++ [128] ++ List.replicate ((119 - len % 64) % 64) 0
      ++ leBytes ((8 * len) % 18446744073709551616) 8

/-- Split a byte list into 64-byte chunks; the first argument is fuel that
makes the recursion structural, instantiated with the list length. -/
def chunks64Aux : Nat → List Nat → List (List Nat)
  | _, [] => []
  | 0, l => [l]
  | fuel + 1, x :: xs => (x :: xs.take 63) :: chunks64Aux fuel (xs.drop 63)

/-- Split a byte list into 64-byte chunks. -/
def chunks64 (l : List Nat) : List (List Nat) := chunks64Aux l.length l

/-- Assemble little-endian 32-bit words from bytes; the first argument is
fuel that makes the recursion structural. -/
def toWordsAux : Nat → List Nat → List Nat
  | fuel + 1, b0 :: b1 :: b2 :: b3 :: rest =>
    (b0 + 256 * b1 + 65536 * b2 + 16777216 * b3) :: toWordsAux fuel rest
  | _, _ => []

/-- Assemble a 64-byte chunk into 16 little-endian 32-bit words. -/
def toWords (l : List Nat) : List Nat := toWordsAux l.length l

/-- Go's `md5.Sum(data)` (RFC 1321): the 16-byte MD5 digest of a byte
sequence. -/
def md5Sum (msg : List Nat) : List Nat :=
  let f := (chunks64 (md5Pad msg)).foldl (fun st chunk => md5Block st (toWords chunk))
    { a := 1732584193, b := 4023233417, c := 2562383102, d := 271733878 }
  leBytes f.a 4 ++ leBytes f.b 4 ++ leBytes f.c 4 ++ leBytes f.d 4

/-- The digit table `hextable = "0123456789abcdef"` of Go's
`encoding/hex`. -/
def hexLowerChars : List Char := "0123456789abcdef".data

/-- The lower-case hexadecimal digit of a value below 16. -/
def hexDigit (n : Nat) : Char := List.getD hexLowerChars n '0'

/-- Go's `hex.EncodeToString`: two lower-case hex digits per byte, high
nibble first. -/
def hexEncodeToString (bs : List Nat) : String :=
  String.mk ((bs.map (fun b => [hexDigit (b / 16), hexDigit (b % 16)])).flatten)

/-- The composite `hex.EncodeToString(md5.Sum([]byte(s))[:])` applied by
`createPatient` (lines 104–105) and `updatePatient` (lines 145–146). -/
def md5hex (s : String) : String := hexEncodeToString (md5Sum (strBytes s))

/-- The shared state of the program: the map `patients` and the identity
`counter` (src/main.go lines 26–27).  The map is an association list whose
entry order stands for Go's unspecified map iteration order. -/
structure StoreState where
  patients : List (Int × Patient)
  counter : Int
deriving Repr, DecidableEq

/-- The initial program state: empty map, counter seeded at 1. -/
def initState : StoreState := { patients := [], counter := 1 }

/-- The outcome a handler writes to the response: a JSON list (line 86), a
JSON record (lines 113, 125, 149), or one of the error/no-content statuses
(`http.Error` / `WriteHeader` calls). -/
inductive Response where
  | okList (ps : List Patient)
  | okRecord (p : Patient)
  | notFound
  | badRequest
  | methodNotAllowed
  | noContent
deriving Repr, DecidableEq

/-- `getPatients` (lines 81–89): list every stored record; the state is not
changed. -/
def getPatients (s : StoreState) : StoreState × Response :=
  (s, .okList (s.patients.map Prod.snd))

/-- `createPatient` (lines 92–116) applied to the decoded request body
(`none` stands for a body `json.Unmarshal` rejects, which leaves the struct
at its zero value).  Validate the name, hash the password with MD5, then
assign `counter` as the id, increment the counter and insert. -/
def createPatient (s : StoreState) (body : Option Patient) : StoreState × Response :=
  let p := decodeOrZero body
  if validatePatientName p.name = false then (s, .badRequest)
  else
    let stored : Patient :=
      { id := s.counter, name := p.name, age := p.age, password := md5hex p.password }
    ({ patients := mapSet s.patients stored.id stored, counter := s.counter + 1 },
     .okRecord stored)

/-- `getPatient` (lines 119–128): return the record for `id`, or a 404. -/
def getPatient (s : StoreState) (id : Int) : StoreState × Response :=
  match mapGet s.patients id with
  | none => (s, .notFound)
  | some p => (s, .okRecord p)

/-- `updatePatient` (lines 131–152): 404 when `id` is absent; otherwise
overwrite `Name` and `Age` through the map's pointer with the decoded
body's values (the zero value when decoding failed), re-hash and overwrite
`Password` only when the decoded password is non-empty, and return the
updated record. -/
def updatePatient (s : StoreState) (id : Int) (body : Option Patient) :
    StoreState × Response :=
  match mapGet s.patients id with
  | none => (s, .notFound)
  | some p =>
    let update := decodeOrZero body
    let p1 : Patient := { p with name := update.name, age := update.age }
    let p2 : Patient :=
      if update.password = "" then p1
      else { p1 with password := md5hex update.password }
    ({ s with patients := mapSet s.patients id p2 }, .okRecord p2)

/-- `deletePatient` (lines 155–165): 404 when `id` is absent, otherwise
remove the record and answer 204 No Content. -/
def deletePatient (s : StoreState) (id : Int) : StoreState × Response :=
  match mapGet s.patients id with
  | none => (s, .notFound)
  | some _ => ({ s with patients := mapErase s.patients id }, .noContent)

/-- Digit test of `strconv.Atoi`. -/
def isDigitChar (c : Char) : Bool := 48 ≤ c.toNat && c.toNat ≤ 57

/-- Value of a digit string (most significant first). -/
def digitsToNat (l : List Char) : Nat :=
  l.foldl (fun acc c => 10 * acc + (c.toNat - 48)) 0

/-- Sign and digit part of a candidate integer string: `strconv.Atoi`
accepts one optional leading sign (`-` is `Char.ofNat 45`, `+` is
`Char.ofNat 43`) before the digits. -/
def atoiDigits (s : String) : Bool × List Char :=
  if s.data.head? = some (Char.ofNat 45) then (true, s.data.tail)
  else if s.data.head? = some (Char.ofNat 43) then (false, s.data.tail)
  else (false, s.data)

/-- A request path identity that `strconv.Atoi` parses without a syntax
error: an optional sign followed by one or more digits. -/
def isNumericString (s : String) : Bool :=
  !(atoiDigits s).2.isEmpty && (atoiDigits s).2.all isDigitChar

/-- Go's `strconv.Atoi` with its error ignored, as `patientHandler` does at
line 66: an optional sign followed by at least one digit parses to its
value, clamped to the 64-bit range on overflow (`ErrRange` returns the
clamped value); any other string is a syntax error and yields 0. -/
def atoi (s : String) : Int :=
  if isNumericString s = false then 0
  else
    let nd := atoiDigits s
    let v : Int := if nd.1 then -(digitsToNat nd.2 : Int) else (digitsToNat nd.2 : Int)
    if v < -9223372036854775808 then -9223372036854775808
    else if v > 9223372036854775807 then 9223372036854775807 else v

/-- `patientsHandler` (lines 52–61): dispatch on the method for the
collection route; any unrecognized method answers 405 and does not touch
the store. -/
def patientsHandler (s : StoreState) (method : String) (body : Option Patient) :
    StoreState × Response :=
  if method = "GET" then getPatients s
  else if method = "POST" then createPatient s body
  else (s, .methodNotAllowed)

/-- `patientHandler` (lines 64–78): extract the identity from the path
suffix with `strconv.Atoi` (error ignored), then dispatch on the method;
any unrecognized method answers 405 and does not touch the store. -/
def patientHandler (s : StoreState) (method : String) (idStr : String)
    (body : Option Patient) : StoreState × Response :=
  let id := atoi idStr
  if method = "GET" then getPatient s id
  else if method = "PUT" then updatePatient s id body
  else if method = "DELETE" then deletePatient s id
  else (s, .methodNotAllowed)

/-- One store operation, as reachable through the handlers. -/
inductive Op where
  | create (body : Option Patient)
  | get (id : Int)
  | listAll
  | update (id : Int) (body : Option Patient)
  | del (id : Int)

/-- Execute one operation against the state. -/
def applyOp (s : StoreState) : Op → StoreState × Response
  | .create b => createPatient s b
  | .get i => getPatient s i
  | .listAll => getPatients s
  | .update i b => updatePatient s i b
  | .del i => deletePatient s i

/-- Execute a sequence of operations, keeping the final state. -/
def runOps (s : StoreState) : List Op → StoreState
  | [] => s
  | o :: rest => runOps (applyOp s o).1 rest

/-- A state the program can be in: reachable from the initial state by some
sequence of operations. -/
def Reachable (s : StoreState) : Prop := ∃ ops : List Op, s = runOps initState ops

/-- The invariant the store maintains: the counter is at least its seed 1,
the map's keys are distinct, and every entry's key lies in `[1, counter)`
with the stored record's `id` field equal to its key. -/
def StoreInv (s : StoreState) : Prop :=
  1 ≤ s.counter ∧ (s.patients.map Prod.fst).Nodup ∧
    ∀ kp ∈ s.patients, 1 ≤ kp.1 ∧ kp.1 < s.counter ∧ kp.2.id = kp.1

/-- The record `updatePatient` builds from the stored record `p` and the
decoded patch `u`: name and age are overwritten, the password only when the
patch's password is non-empty. -/
def updateRecord (p u : Patient) : Patient :=
  if u.password = "" then { p with name := u.name, age := u.age }
  else { p with name := u.name, age := u.age, password := md5hex u.password }

/-- One primitive event of a handler on the process-shared resources (the
`patients` map, the `counter` and the mutex `mu`); events touching only
handler-local data are `localStep`. -/
inductive TraceAction where
  | lock
  | unlock
  | readShared
  | writeShared
  | localStep
deriving Repr, DecidableEq

/-- The shared-resource events of `createPatient` in source order (lines
93–111): read and unmarshal the body, validate, hash (all local), then
`mu.Lock()`, read `counter` into `p.ID`, write `counter`, write the map,
`mu.Unlock()`. -/
def createActions : List TraceAction :=
  [.localStep, .localStep, .localStep,
   .lock, .readShared, .writeShared, .writeShared, .unlock]

/-- The shared-resource events of `updatePatient` in source order (lines
132–147) when the id is present: read the map, read the body (local),
write `Name` and `Age` through the map's pointer, and, when the decoded
password is non-empty, write `Password` — with no `mu.Lock()` anywhere. -/
def updateActions (passwordNonEmpty : Bool) : List TraceAction :=
  [.readShared, .localStep, .writeShared, .writeShared]
    ++ (if passwordNonEmpty then [.writeShared] else [])

/-- The shared-resource events of `deletePatient` in source order (lines
156–163) when the id is present: read the map, then `mu.Lock()`, delete
from the map, `mu.Unlock()`. -/
def deleteActions : List TraceAction :=
  [.readShared, .lock, .writeShared, .unlock]

/-- Whether every shared-state write of the trace happens while the mutex
is held; the second argument carries whether the mutex is currently held. -/
def writesLockedAux : List TraceAction → Bool → Bool
  | [], _ => true
  | a :: rest, held =>
    match a with
    | .lock => writesLockedAux rest true
    | .unlock => writesLockedAux rest false
    | .writeShared => held && writesLockedAux rest held
    | _ => writesLockedAux rest held

/-- Whether every shared-state write of the trace is inside a lock/unlock
region. -/
def writesLocked (tr : List TraceAction) : Bool := writesLockedAux tr false

/-- Update a two-thread-indexed family at one thread. -/
def setAt {α : Type} (f : Bool → α) (t : Bool) (v : α) : Bool → α :=
  fun u => if u = t then v else f u

/-- State of two concurrent `createPatient` critical sections (threads
`false` and `true`) over the shared counter and map: `lockHeld` says which
thread holds `mu`, `pc t` is thread `t`'s position in the locked region of
lines 107–111 (0 before `mu.Lock()`, 1 after it, 2 after `p.ID = counter`,
3 after `counter++`, 4 after the map insert, 5 after `mu.Unlock()`), and
`localId t` is the value thread `t` wrote into its `p.ID`. -/
structure CState where
  counter : Int
  patients : List (Int × Patient)
  lockHeld : Option Bool
  pc : Bool → Nat
  localId : Bool → Int

/-- The two concurrent creates start with both threads before `mu.Lock()`. -/
def cInit (s : StoreState) : CState :=
  { counter := s.counter, patients := s.patients, lockHeld := none,
    pc := fun _ => 0, localId := fun _ => 0 }

/-- Interleaved small-step semantics of two concurrent executions of the
locked region of `createPatient` (lines 107–111), `d t` being the hashed
draft thread `t` inserts.  `mu.Lock()` only proceeds when no thread holds
the mutex; every later step of a thread requires it to hold the mutex. -/
inductive CStep (d : Bool → Patient) : CState → CState → Prop where
  | acquire (t : Bool) (s : CState) :
      s.lockHeld = none → s.pc t = 0 →
      CStep d s { s with lockHeld := some t, pc := setAt s.pc t 1 }
  | assign (t : Bool) (s : CState) :
      s.lockHeld = some t → s.pc t = 1 →
      CStep d s { s with localId := setAt s.localId t s.counter,
                         pc := setAt s.pc t 2 }
  | increment (t : Bool) (s : CState) :
      s.lockHeld = some t → s.pc t = 2 →
      CStep d s { s with counter := s.counter + 1, pc := setAt s.pc t 3 }
  | insert (t : Bool) (s : CState) :
      s.lockHeld = some t → s.pc t = 3 →
      CStep d s { s with patients := mapSet s.patients (s.localId t)
                           { d t with id := s.localId t },
                         pc := setAt s.pc t 4 }
  | release (t : Bool) (s : CState) :
      s.lockHeld = some t → s.pc t = 4 →
      CStep d s { s with lockHeld := none, pc := setAt s.pc t 5 }

/-- States of the two-thread system reachable from a given start state. -/
inductive CReach (d : Bool → Patient) (init : CState) : CState → Prop where
  | refl : CReach d init init
  | step {s s2 : CState} : CReach d init s → CStep d s s2 → CReach d init s2

/-- Inductive invariant of the two-thread system: the mutex holder is
exactly the thread inside the locked region; a thread that has copied the
counter but not yet incremented it holds the current counter value; after
its increment a thread's copied id stays below the counter; two threads
past their increments copied different ids; and program counters stay in
range. -/
def CInv (c : CState) : Prop :=
  (∀ t, c.lockHeld = some t ↔ (1 ≤ c.pc t ∧ c.pc t ≤ 4)) ∧
  (∀ t, c.pc t = 2 → c.localId t = c.counter) ∧
  (∀ t, 3 ≤ c.pc t → c.localId t < c.counter) ∧
  (∀ t u, t ≠ u → 3 ≤ c.pc t → 3 ≤ c.pc u → c.localId t ≠ c.localId u) ∧
  (∀ t, c.pc t ≤ 5)

/-- A concrete valid draft used below: Ann Lee, age 30, empty password. -/
def annDraft : Patient := { id := 0, name := "Ann Lee", age := 30, password := "" }

/-- A concrete valid draft used below: Bo Kim, age 41, empty password. -/
def boDraft : Patient := { id := 0, name := "Bo Kim", age := 41, password := "" }

/-- The store after Create({name: Ann Lee, age: 30}). -/
def scenarioS1 : StoreState := (createPatient initState (some annDraft)).1

/-- The store after the further Create({name: Bo Kim, age: 41}). -/
def scenarioS2 : StoreState := (createPatient scenarioS1 (some boDraft)).1

/-- The store after the further Delete(1). -/
def scenarioS3 : StoreState := (deletePatient scenarioS2 1).1

set_option maxRecDepth 100000 in
/-- Sanity check of the MD5 model against the well-known digest of the
empty string. -/
theorem md5hex_empty : md5hex "" = "d41d8cd98f00b204e9800998ecf8427e" := by
  decide

/-- Setting key `k` and then reading it yields the new value. -/
theorem mapGet_mapSet_self (m : List (Int × Patient)) (k : Int) (v : Patient) :
    mapGet (mapSet m k v) k = some v := by
  induction m with
  | nil => simp [mapSet, mapGet]
  | cons kv rest ih =>
    obtain ⟨k2, v2⟩ := kv
    by_cases h : k2 = k
    · simp [mapSet, mapGet, h]
    · simp [mapSet, mapGet, h, ih]

/-- Setting key `k` does not change the value read at another key. -/
theorem mapGet_mapSet_ne (m : List (Int × Patient)) (k k2 : Int) (v : Patient)
    (h : k ≠ k2) : mapGet (mapSet m k v) k2 = mapGet m k2 := by
  induction m with
  | nil => simp [mapSet, mapGet, h]
  | cons kv rest ih =>
    obtain ⟨k3, v3⟩ := kv
    by_cases h3 : k3 = k
    · subst h3
      simp [mapSet, mapGet, h]
    · by_cases h2 : k3 = k2
      · simp [mapSet, mapGet, h3, h2, Ne.symm h]
      · simp [mapSet, mapGet, h3, h2, ih]

/-- Every entry of `mapSet m k v` is the new entry or one of `m`. -/
theorem mem_mapSet (m : List (Int × Patient)) (k : Int) (v : Patient) :
    ∀ kp ∈ mapSet m k v, kp = (k, v) ∨ kp ∈ m := by
  induction m with
  | nil => simp [mapSet]
  | cons kv rest ih =>
    obtain ⟨k2, v2⟩ := kv
    by_cases h : k2 = k
    · intro kp hkp
      simp only [mapSet, if_pos h, List.mem_cons] at hkp
      rcases hkp with h1 | h1
      · exact Or.inl h1
      · exact Or.inr (List.mem_cons_of_mem _ h1)
    · intro kp hkp
      simp only [mapSet, if_neg h, List.mem_cons] at hkp
      rcases hkp with h1 | h1
      · subst h1
        exact Or.inr (List.mem_cons_self _ _)
      · rcases ih kp h1 with h2 | h2
        · exact Or.inl h2
        · exact Or.inr (List.mem_cons_of_mem _ h2)

/-- Reading a key found in the list returns an actual entry. -/
theorem mapGet_mem (m : List (Int × Patient)) (k : Int) (p : Patient)
    (h : mapGet m k = some p) : (k, p) ∈ m := by
  induction m with
  | nil => simp [mapGet] at h
  | cons kv rest ih =>
    obtain ⟨k2, v2⟩ := kv
    by_cases h2 : k2 = k
    · subst h2
      simp only [mapGet, if_pos, Option.some.injEq] at h
      subst h
      exact List.mem_cons_self _ _
    · simp only [mapGet, if_neg h2] at h
      exact List.mem_cons_of_mem _ (ih h)

/-- A key no entry carries reads as `none`. -/
theorem mapGet_eq_none (m : List (Int × Patient)) (k : Int)
    (h : ∀ kp ∈ m, kp.1 ≠ k) : mapGet m k = none := by
  induction m with
  | nil => rfl
  | cons kv rest ih =>
    obtain ⟨k2, v2⟩ := kv
    have hne : k2 ≠ k := h (k2, v2) (List.mem_cons_self ..)
    simp only [mapGet, if_neg hne]
    exact ih (fun kp hkp => h kp (List.mem_cons_of_mem _ hkp))

/-- Setting a key already present leaves the key list unchanged. -/
theorem keys_mapSet_mem (m : List (Int × Patient)) (k : Int) (v : Patient)
    (h : k ∈ m.map Prod.fst) :
    (mapSet m k v).map Prod.fst = m.map Prod.fst := by
  induction m with
  | nil => simp at h
  | cons kv rest ih =>
    obtain ⟨k2, v2⟩ := kv
    by_cases h2 : k2 = k
    · simp [mapSet, h2]
    · simp only [List.map_cons, List.mem_cons] at h
      rcases h with h1 | h1
      · exact absurd h1.symm h2
      · simp [mapSet, h2, ih h1]

/-- Setting a fresh key appends it to the key list. -/
theorem keys_mapSet_not_mem (m : List (Int × Patient)) (k : Int) (v : Patient)
    (h : k ∉ m.map Prod.fst) :
    (mapSet m k v).map Prod.fst = m.map Prod.fst ++ [k] := by
  induction m with
  | nil => simp [mapSet]
  | cons kv rest ih =>
    obtain ⟨k2, v2⟩ := kv
    simp only [List.map_cons, List.mem_cons] at h
    push_neg at h
    simp [mapSet, Ne.symm h.1, ih h.2]

/-- Erasing a key gives a sublist. -/
theorem mapErase_sublist (m : List (Int × Patient)) (k : Int) :
    List.Sublist (mapErase m k) m := by
  induction m with
  | nil => simp [mapErase]
  | cons kv rest ih =>
    obtain ⟨k2, v2⟩ := kv
    by_cases h : k2 = k
    · simp only [mapErase, if_pos h]
      exact ih.cons _
    · simp only [mapErase, if_neg h]
      exact ih.cons₂ _

/-- Erasing key `k` makes it read as `none`. -/
theorem mapGet_mapErase_self (m : List (Int × Patient)) (k : Int) :
    mapGet (mapErase m k) k = none := by
  induction m with
  | nil => rfl
  | cons kv rest ih =>
    obtain ⟨k2, v2⟩ := kv
    by_cases h : k2 = k
    · simp [mapErase, h, ih]
    · simp [mapErase, mapGet, h, ih]

/-- Erasing key `k` does not change the value read at another key. -/
theorem mapGet_mapErase_ne (m : List (Int × Patient)) (k k2 : Int)
    (h : k ≠ k2) : mapGet (mapErase m k) k2 = mapGet m k2 := by
  induction m with
  | nil => rfl
  | cons kv rest ih =>
    obtain ⟨k3, v3⟩ := kv
    by_cases h3 : k3 = k
    · subst h3
      simp [mapErase, mapGet, h, ih]
    · by_cases h2 : k3 = k2
      · simp [mapErase, mapGet, h3, h2, Ne.symm h]
      · simp [mapErase, mapGet, h3, h2, ih]

/-- Listing does not change the state. -/
theorem getPatients_fst (s : StoreState) : (getPatients s).1 = s := rfl

/-- Reading one record does not change the state. -/
theorem getPatient_fst (s : StoreState) (id : Int) : (getPatient s id).1 = s := by
  cases h : mapGet s.patients id <;> simp [getPatient, h]

/-- Updating never touches the stored `id` field. -/
theorem updateRecord_id (p u : Patient) : (updateRecord p u).id = p.id := by
  unfold updateRecord
  split <;> rfl

/-- Unfolding of `createPatient` on a draft whose name passes validation. -/
theorem createPatient_valid (s : StoreState) (b : Option Patient)
    (h : validatePatientName (decodeOrZero b).name = true) :
    createPatient s b =
      ({ patients := mapSet s.patients s.counter
           { id := s.counter, name := (decodeOrZero b).name,
             age := (decodeOrZero b).age,
             password := md5hex (decodeOrZero b).password },
         counter := s.counter + 1 },
       .okRecord
         { id := s.counter, name := (decodeOrZero b).name,
           age := (decodeOrZero b).age,
           password := md5hex (decodeOrZero b).password }) := by
  simp [createPatient, h]

/-- Unfolding of `createPatient` on a draft whose name fails validation. -/
theorem createPatient_invalid (s : StoreState) (b : Option Patient)
    (h : validatePatientName (decodeOrZero b).name = false) :
    createPatient s b = (s, .badRequest) := by
  simp [createPatient, h]

/-- Unfolding of `updatePatient` on an absent id. -/
theorem updatePatient_none (s : StoreState) (id : Int) (b : Option Patient)
    (h : mapGet s.patients id = none) : updatePatient s id b = (s, .notFound) := by
  simp [updatePatient, h]

/-- Unfolding of `updatePatient` on a present id. -/
theorem updatePatient_some (s : StoreState) (id : Int) (b : Option Patient)
    (p : Patient) (h : mapGet s.patients id = some p) :
    updatePatient s id b =
      ({ s with patients := mapSet s.patients id (updateRecord p (decodeOrZero b)) },
       .okRecord (updateRecord p (decodeOrZero b))) := by
  simp only [updatePatient, h, updateRecord]

/-- Unfolding of `deletePatient` on an absent id. -/
theorem deletePatient_none (s : StoreState) (id : Int)
    (h : mapGet s.patients id = none) : deletePatient s id = (s, .notFound) := by
  simp [deletePatient, h]

/-- Unfolding of `deletePatient` on a present id. -/
theorem deletePatient_some (s : StoreState) (id : Int) (p : Patient)
    (h : mapGet s.patients id = some p) :
    deletePatient s id =
      ({ s with patients := mapErase s.patients id }, .noContent) := by
  simp [deletePatient, h]

/-- A fresh id equal to the counter is not among the keys. -/
theorem counter_not_key (s : StoreState) (h : StoreInv s) :
    s.counter ∉ s.patients.map Prod.fst := by
  intro hmem
  obtain ⟨kp, hkp, hfst⟩ := List.mem_map.mp hmem
  have hlt := (h.2.2 kp hkp).2.1
  omega

/-- `createPatient` preserves the store invariant. -/
theorem storeInv_createPatient (s : StoreState) (b : Option Patient)
    (h : StoreInv s) : StoreInv (createPatient s b).1 := by
  by_cases hv : validatePatientName (decodeOrZero b).name = true
  · rw [createPatient_valid s b hv]
    dsimp only
    refine ⟨?_, ?_, ?_⟩
    · show 1 ≤ s.counter + 1
      have := h.1
      omega
    · show (List.map Prod.fst (mapSet s.patients s.counter _)).Nodup
      rw [keys_mapSet_not_mem _ _ _ (counter_not_key s h)]
      refine List.Nodup.append h.2.1 (List.nodup_singleton _) ?_
      intro a ha hb
      simp only [List.mem_singleton] at hb
      subst hb
      exact counter_not_key s h ha
    · intro kp hkp
      rcases mem_mapSet _ _ _ kp hkp with h1 | h1
      · subst h1
        refine ⟨h.1, ?_, rfl⟩
        show s.counter < s.counter + 1
        omega
      · obtain ⟨ha, hb, hc⟩ := h.2.2 kp h1
        refine ⟨ha, ?_, hc⟩
        show kp.1 < s.counter + 1
        omega
  · simp only [Bool.not_eq_true] at hv
    rw [createPatient_invalid s b hv]
    exact h

/-- `updatePatient` preserves the store invariant. -/
theorem storeInv_updatePatient (s : StoreState) (id : Int) (b : Option Patient)
    (h : StoreInv s) : StoreInv (updatePatient s id b).1 := by
  cases hx : mapGet s.patients id with
  | none =>
    rw [updatePatient_none s id b hx]
    exact h
  | some p =>
    have hmem : (id, p) ∈ s.patients := mapGet_mem _ _ _ hx
    have hbounds := h.2.2 _ hmem
    rw [updatePatient_some s id b p hx]
    refine ⟨h.1, ?_, ?_⟩
    · rw [keys_mapSet_mem _ _ _ (List.mem_map.mpr ⟨(id, p), hmem, rfl⟩)]
      exact h.2.1
    · intro kp hkp
      rcases mem_mapSet _ _ _ kp hkp with h1 | h1
      · subst h1
        refine ⟨hbounds.1, hbounds.2.1, ?_⟩
        rw [updateRecord_id]
        exact hbounds.2.2
      · exact h.2.2 kp h1

/-- `deletePatient` preserves the store invariant. -/
theorem storeInv_deletePatient (s : StoreState) (id : Int)
    (h : StoreInv s) : StoreInv (deletePatient s id).1 := by
  cases hx : mapGet s.patients id with
  | none =>
    rw [deletePatient_none s id hx]
    exact h
  | some p =>
    rw [deletePatient_some s id p hx]
    refine ⟨h.1, ?_, ?_⟩
    · exact h.2.1.sublist ((mapErase_sublist _ _).map Prod.fst)
    · intro kp hkp
      exact h.2.2 kp ((mapErase_sublist _ _).subset hkp)

/-- Every operation preserves the store invariant. -/
theorem storeInv_applyOp (s : StoreState) (o : Op) (h : StoreInv s) :
    StoreInv (applyOp s o).1 := by
  cases o with
  | create b => exact storeInv_createPatient s b h
  | get i => rw [applyOp, getPatient_fst]; exact h
  | listAll => exact h
  | update i b => exact storeInv_updatePatient s i b h
  | del i => exact storeInv_deletePatient s i h

/-- Operation sequences preserve the store invariant. -/
theorem storeInv_runOps (ops : List Op) (s : StoreState) (h : StoreInv s) :
    StoreInv (runOps s ops) := by
  induction ops generalizing s with
  | nil => exact h
  | cons o rest ih => exact ih _ (storeInv_applyOp s o h)

/-- The initial state satisfies the store invariant. -/
theorem storeInv_initState : StoreInv initState := by
  refine ⟨le_refl 1, ?_, ?_⟩ <;> simp [initState]

/-- Every reachable state satisfies the store invariant. -/
theorem reachable_storeInv (s : StoreState) (h : Reachable s) : StoreInv s := by
  obtain ⟨ops, rfl⟩ := h
  exact storeInv_runOps ops initState storeInv_initState

/-- No operation ever decreases the counter. -/
theorem counter_le_applyOp (s : StoreState) (o : Op) :
    s.counter ≤ (applyOp s o).1.counter := by
  cases o with
  | create b =>
    by_cases hv : validatePatientName (decodeOrZero b).name = true
    · rw [applyOp, createPatient_valid s b hv]
      dsimp only
      omega
    · simp only [Bool.not_eq_true] at hv
      rw [applyOp, createPatient_invalid s b hv]
  | get i => rw [applyOp, getPatient_fst]
  | listAll => exact le_refl _
  | update i b =>
    cases hx : mapGet s.patients i with
    | none => rw [applyOp, updatePatient_none s i b hx]
    | some p => rw [applyOp, updatePatient_some s i b p hx]
  | del i =>
    cases hx : mapGet s.patients i with
    | none => rw [applyOp, deletePatient_none s i hx]
    | some p => rw [applyOp, deletePatient_some s i p hx]

/-- No operation sequence ever decreases the counter. -/
theorem counter_le_runOps (ops : List Op) (s : StoreState) :
    s.counter ≤ (runOps s ops).counter := by
  induction ops generalizing s with
  | nil => exact le_refl _
  | cons o rest ih => exact le_trans (counter_le_applyOp s o) (ih _)

/-- Reading `setAt` at the updated thread. -/
theorem setAt_self {α : Type} (f : Bool → α) (t : Bool) (v : α) :
    setAt f t v t = v := by
  simp [setAt]

/-- Reading `setAt` at the other thread. -/
theorem setAt_other {α : Type} (f : Bool → α) (t u : Bool) (v : α)
    (h : u ≠ t) : setAt f t v u = f u := by
  simp [setAt, h]

/-- The start state of the two concurrent creates satisfies the
invariant. -/
theorem cInv_cInit (s : StoreState) : CInv (cInit s) := by
  refine ⟨?_, ?_, ?_, ?_, ?_⟩
  · intro t
    simp [cInit]
  · intro t h
    simp [cInit] at h
  · intro t h
    simp [cInit] at h
  · intro t u _ h
    simp [cInit] at h
  · intro t
    simp [cInit]

/-- Every step of the two-thread system preserves the invariant. -/
theorem cInv_step {d : Bool → Patient} {s s2 : CState}
    (hs : CStep d s s2) (h : CInv s) : CInv s2 := by
  obtain ⟨h1, h2, h3, h4, h5⟩ := h
  cases hs with
  | acquire t s1 hl hpc =>
    have hfree : ∀ u, s.pc u = 0 ∨ s.pc u = 5 := by
      intro u
      have hiff := h1 u
      rw [hl] at hiff
      have hn : ¬(1 ≤ s.pc u ∧ s.pc u ≤ 4) := fun hc => Option.noConfusion (hiff.mpr hc)
      have h5u := h5 u
      omega
    refine ⟨?_, ?_, ?_, ?_, ?_⟩ <;> dsimp only
    · intro u
      by_cases htu : u = t
      · subst htu
        rw [setAt_self]
        exact ⟨fun _ => by omega, fun _ => rfl⟩
      · rw [setAt_other _ _ _ _ htu]
        constructor
        · intro he
          exact absurd (Option.some.inj he).symm htu
        · intro hu
          exfalso
          rcases hfree u with h0 | h0 <;> omega
    · intro u hu
      by_cases htu : u = t
      · subst htu
        rw [setAt_self] at hu
        omega
      · rw [setAt_other _ _ _ _ htu] at hu
        exact h2 u hu
    · intro u hu
      by_cases htu : u = t
      · subst htu
        rw [setAt_self] at hu
        omega
      · rw [setAt_other _ _ _ _ htu] at hu
        exact h3 u hu
    · intro u v huv hu hv
      by_cases hut : u = t
      · subst hut
        rw [setAt_self] at hu
        omega
      · by_cases hvt : v = t
        · subst hvt
          rw [setAt_self] at hv
          omega
        · rw [setAt_other _ _ _ _ hut] at hu
          rw [setAt_other _ _ _ _ hvt] at hv
          exact h4 u v huv hu hv
    · intro u
      by_cases htu : u = t
      · subst htu
        rw [setAt_self]
        omega
      · rw [setAt_other _ _ _ _ htu]
        exact h5 u
  | assign t s1 hl hpc =>
    have hout : ∀ u, u ≠ t → s.pc u = 0 ∨ s.pc u = 5 := by
      intro u hu
      have hiff := h1 u
      rw [hl] at hiff
      have hn : ¬(1 ≤ s.pc u ∧ s.pc u ≤ 4) :=
        fun hc => hu (Option.some.inj (hiff.mpr hc)).symm
      have h5u := h5 u
      omega
    refine ⟨?_, ?_, ?_, ?_, ?_⟩ <;> dsimp only
    · intro u
      by_cases htu : u = t
      · subst htu
        rw [setAt_self, hl]
        exact ⟨fun _ => by omega, fun _ => rfl⟩
      · rw [setAt_other _ _ _ _ htu, hl]
        constructor
        · intro he
          exact absurd (Option.some.inj he).symm htu
        · intro hu
          exfalso
          rcases hout u htu with h0 | h0 <;> omega
    · intro u hu
      by_cases htu : u = t
      · subst htu
        rw [setAt_self]
      · rw [setAt_other _ _ _ _ htu] at hu
        exfalso
        rcases hout u htu with h0 | h0 <;> omega
    · intro u hu
      by_cases htu : u = t
      · subst htu
        rw [setAt_self] at hu
        omega
      · rw [setAt_other _ _ _ _ htu] at hu
        rw [setAt_other _ _ _ _ htu]
        exact h3 u hu
    · intro u v huv hu hv
      by_cases hut : u = t
      · subst hut
        rw [setAt_self] at hu
        omega
      · by_cases hvt : v = t
        · subst hvt
          rw [setAt_self] at hv
          omega
        · rw [setAt_other _ _ _ _ hut] at hu
          rw [setAt_other _ _ _ _ hvt] at hv
          rw [setAt_other _ _ _ _ hut, setAt_other _ _ _ _ hvt]
          exact h4 u v huv hu hv
    · intro u
      by_cases htu : u = t
      · subst htu
        rw [setAt_self]
        omega
      · rw [setAt_other _ _ _ _ htu]
        exact h5 u
  | increment t s1 hl hpc =>
    have hout : ∀ u, u ≠ t → s.pc u = 0 ∨ s.pc u = 5 := by
      intro u hu
      have hiff := h1 u
      rw [hl] at hiff
      have hn : ¬(1 ≤ s.pc u ∧ s.pc u ≤ 4) :=
        fun hc => hu (Option.some.inj (hiff.mpr hc)).symm
      have h5u := h5 u
      omega
    refine ⟨?_, ?_, ?_, ?_, ?_⟩ <;> dsimp only
    · intro u
      by_cases htu : u = t
      · subst htu
        rw [setAt_self, hl]
        exact ⟨fun _ => by omega, fun _ => rfl⟩
      · rw [setAt_other _ _ _ _ htu, hl]
        constructor
        · intro he
          exact absurd (Option.some.inj he).symm htu
        · intro hu
          exfalso
          rcases hout u htu with h0 | h0 <;> omega
    · intro u hu
      by_cases htu : u = t
      · subst htu
        rw [setAt_self] at hu
        omega
      · rw [setAt_other _ _ _ _ htu] at hu
        exfalso
        rcases hout u htu with h0 | h0 <;> omega
    · intro u hu
      by_cases htu : u = t
      · subst htu
        have := h2 _ hpc
        omega
      · rw [setAt_other _ _ _ _ htu] at hu
        have := h3 u hu
        omega
    · intro u v huv hu hv
      by_cases hut : u = t
      · subst hut
        have hvt : v ≠ u := fun he => huv he.symm
        rw [setAt_other _ _ _ _ hvt] at hv
        have hvlt := h3 v hv
        have h2t := h2 _ hpc
        omega
      · by_cases hvt : v = t
        · subst hvt
          rw [setAt_other _ _ _ _ hut] at hu
          have hult := h3 u hu
          have h2t := h2 _ hpc
          omega
        · rw [setAt_other _ _ _ _ hut] at hu
          rw [setAt_other _ _ _ _ hvt] at hv
          exact h4 u v huv hu hv
    · intro u
      by_cases htu : u = t
      · subst htu
        rw [setAt_self]
        omega
      · rw [setAt_other _ _ _ _ htu]
        exact h5 u
  | insert t s1 hl hpc =>
    have hout : ∀ u, u ≠ t → s.pc u = 0 ∨ s.pc u = 5 := by
      intro u hu
      have hiff := h1 u
      rw [hl] at hiff
      have hn : ¬(1 ≤ s.pc u ∧ s.pc u ≤ 4) :=
        fun hc => hu (Option.some.inj (hiff.mpr hc)).symm
      have h5u := h5 u
      omega
    refine ⟨?_, ?_, ?_, ?_, ?_⟩ <;> dsimp only
    · intro u
      by_cases htu : u = t
      · subst htu
        rw [setAt_self, hl]
        exact ⟨fun _ => by omega, fun _ => rfl⟩
      · rw [setAt_other _ _ _ _ htu, hl]
        constructor
        · intro he
          exact absurd (Option.some.inj he).symm htu
        · intro hu
          exfalso
          rcases hout u htu with h0 | h0 <;> omega
    · intro u hu
      by_cases htu : u = t
      · subst htu
        rw [setAt_self] at hu
        omega
      · rw [setAt_other _ _ _ _ htu] at hu
        exfalso
        rcases hout u htu with h0 | h0 <;> omega
    · intro u hu
      by_cases htu : u = t
      · subst htu
        exact h3 _ (by omega)
      · rw [setAt_other _ _ _ _ htu] at hu
        exact h3 u hu
    · intro u v huv hu hv
      by_cases hut : u = t
      · subst hut
        have hvt : v ≠ u := fun he => huv he.symm
        rw [setAt_other _ _ _ _ hvt] at hv
        exact h4 _ v huv (by omega) hv
      · by_cases hvt : v = t
        · subst hvt
          rw [setAt_other _ _ _ _ hut] at hu
          exact h4 u _ huv hu (by omega)
        · rw [setAt_other _ _ _ _ hut] at hu
          rw [setAt_other _ _ _ _ hvt] at hv
          exact h4 u v huv hu hv
    · intro u
      by_cases htu : u = t
      · subst htu
        rw [setAt_self]
        omega
      · rw [setAt_other _ _ _ _ htu]
        exact h5 u
  | release t s1 hl hpc =>
    have hout : ∀ u, u ≠ t → s.pc u = 0 ∨ s.pc u = 5 := by
      intro u hu
      have hiff := h1 u
      rw [hl] at hiff
      have hn : ¬(1 ≤ s.pc u ∧ s.pc u ≤ 4) :=
        fun hc => hu (Option.some.inj (hiff.mpr hc)).symm
      have h5u := h5 u
      omega
    refine ⟨?_, ?_, ?_, ?_, ?_⟩ <;> dsimp only
    · intro u
      constructor
      · intro he
        exact Option.noConfusion he
      · intro hu
        exfalso
        by_cases htu : u = t
        · subst htu
          rw [setAt_self] at hu
          omega
        · rw [setAt_other _ _ _ _ htu] at hu
          rcases hout u htu with h0 | h0 <;> omega
    · intro u hu
      by_cases htu : u = t
      · subst htu
        rw [setAt_self] at hu
        omega
      · rw [setAt_other _ _ _ _ htu] at hu
        exfalso
        rcases hout u htu with h0 | h0 <;> omega
    · intro u hu
      by_cases htu : u = t
      · subst htu
        exact h3 _ (by omega)
      · rw [setAt_other _ _ _ _ htu] at hu
        exact h3 u hu
    · intro u v huv hu hv
      by_cases hut : u = t
      · subst hut
        have hvt : v ≠ u := fun he => huv he.symm
        rw [setAt_other _ _ _ _ hvt] at hv
        exact h4 _ v huv (by omega) hv
      · by_cases hvt : v = t
        · subst hvt
          rw [setAt_other _ _ _ _ hut] at hu
          exact h4 u _ huv hu (by omega)
        · rw [setAt_other _ _ _ _ hut] at hu
          rw [setAt_other _ _ _ _ hvt] at hv
          exact h4 u v huv hu hv
    · intro u
      by_cases htu : u = t
      · subst htu
        rw [setAt_self]
      · rw [setAt_other _ _ _ _ htu]
        exact h5 u

/-- The invariant holds in every reachable state of the two-thread
system. -/
theorem cInv_reach {d : Bool → Patient} {init c : CState}
    (hinit : CInv init) (h : CReach d init c) : CInv c := by
  induction h with
  | refl => exact hinit
  | step hr hs ih => exact cInv_step hs ih

/-- A successful create returns the id it read from the counter. -/
theorem createPatient_id (s : StoreState) (b : Option Patient) (r : Patient)
    (h : (createPatient s b).2 = .okRecord r) : r.id = s.counter := by
  by_cases hv : validatePatientName (decodeOrZero b).name = true
  · rw [createPatient_valid s b hv] at h
    dsimp only at h
    injection h with h2
    rw [← h2]
  · simp only [Bool.not_eq_true] at hv
    rw [createPatient_invalid s b hv] at h
    exact Response.noConfusion h

/-- A successful create increments the counter by one. -/
theorem createPatient_counter (s : StoreState) (b : Option Patient) (r : Patient)
    (h : (createPatient s b).2 = .okRecord r) :
    (createPatient s b).1.counter = s.counter + 1 := by
  by_cases hv : validatePatientName (decodeOrZero b).name = true
  · rw [createPatient_valid s b hv]
  · simp only [Bool.not_eq_true] at hv
    rw [createPatient_invalid s b hv] at h
    exact Response.noConfusion h

/-- The updated record takes the patch's name. -/
theorem updateRecord_name (p u : Patient) : (updateRecord p u).name = u.name := by
  unfold updateRecord
  split <;> rfl

/-- The updated record takes the patch's age. -/
theorem updateRecord_age (p u : Patient) : (updateRecord p u).age = u.age := by
  unfold updateRecord
  split <;> rfl

/-- An empty patch password leaves the stored password unchanged. -/
theorem updateRecord_password_empty (p u : Patient) (h : u.password = "") :
    (updateRecord p u).password = p.password := by
  simp [updateRecord, h]

/-- A non-empty patch password is hashed and overwrites the stored one. -/
theorem updateRecord_password_nonempty (p u : Patient) (h : u.password ≠ "") :
    (updateRecord p u).password = md5hex u.password := by
  simp [updateRecord, h]

/-- Claim C2: for every id and patch, Update signals NotFound when no record
with that id is stored; otherwise it overwrites the stored record's name and
age with the patch's values, leaves the record's id unchanged, overwrites
the stored secret only when the patch's secret is non-empty (an empty
secret leaves it unchanged), and returns the updated record, which is also
what is then stored under the id. -/
theorem claim_C2 : ∀ (s : StoreState) (id : Int) (b : Option Patient),
    (mapGet s.patients id = none → updatePatient s id b = (s, Response.notFound)) ∧
    (∀ p : Patient, mapGet s.patients id = some p →
      updatePatient s id b =
        ({ s with patients := mapSet s.patients id (updateRecord p (decodeOrZero b)) },
         Response.okRecord (updateRecord p (decodeOrZero b))) ∧
      mapGet (updatePatient s id b).1.patients id =
        some (updateRecord p (decodeOrZero b)) ∧
      (updateRecord p (decodeOrZero b)).id = p.id ∧
      (updateRecord p (decodeOrZero b)).name = (decodeOrZero b).name ∧
      (updateRecord p (decodeOrZero b)).age = (decodeOrZero b).age ∧
      ((decodeOrZero b).password = "" →
        (updateRecord p (decodeOrZero b)).password = p.password) ∧
      ((decodeOrZero b).password ≠ "" →
        (updateRecord p (decodeOrZero b)).password =
          md5hex (decodeOrZero b).password)) := by
  intro s id b
  constructor
  · intro h
    exact updatePatient_none s id b h
  · intro p hp
    refine ⟨updatePatient_some s id b p hp, ?_, updateRecord_id p _,
      updateRecord_name p _, updateRecord_age p _,
      updateRecord_password_empty p _, updateRecord_password_nonempty p _⟩
    rw [updatePatient_some s id b p hp]
    dsimp only
    exact mapGet_mapSet_self _ _ _

/-- Counterexample to claim C5: after creating record 1, a PUT for id 1
whose body fails to decode (the dispatcher ignores the decode error) DOES
reach and modify the collection, and the response is not BadRequest. -/
theorem claim_C5_cex :
    (patientHandler (createPatient initState (some annDraft)).1 "PUT" "1" none).1.patients ≠
      (createPatient initState (some annDraft)).1.patients ∧
    (patientHandler (createPatient initState (some annDraft)).1 "PUT" "1" none).2 ≠
      Response.badRequest := by
  constructor <;> decide

/-- Claim C5 as amended: a Create whose payload fails to decode is rejected
with BadRequest without touching the store (the zero-valued draft's empty
name fails validation), but an Update whose payload fails to decode is NOT
rejected: when the id exists, the zero-valued patch is applied, overwriting
the stored name with "" and the age with 0 (the secret stays), so the
store is modified. -/
theorem claim_C5 :
    (∀ s : StoreState, createPatient s none = (s, Response.badRequest)) ∧
    (∀ (s : StoreState) (id : Int) (p : Patient), mapGet s.patients id = some p →
      updatePatient s id none =
        ({ s with patients := mapSet s.patients id { p with name := "", age := 0 } },
         Response.okRecord { p with name := "", age := 0 })) := by
  constructor
  · intro s
    exact createPatient_invalid s none (by decide)
  · intro s id p hp
    rw [updatePatient_some s id none p hp]
    simp [updateRecord, decodeOrZero, zeroPatient]

set_option maxRecDepth 100000 in
/-- Counterexample to claim C6: the update path never invokes the name
check.  After creating record 1, a PUT for id 1 with the invalid name "x9"
is not rejected: it answers with the updated record and stores the invalid
name. -/
theorem claim_C6_cex :
    validatePatientName "x9" = false ∧
    (updatePatient (createPatient initState (some annDraft)).1 1
      (some { id := 0, name := "x9", age := 5, password := "" })).2 ≠
      Response.badRequest ∧
    mapGet (updatePatient (createPatient initState (some annDraft)).1 1
      (some { id := 0, name := "x9", age := 5, password := "" })).1.patients 1 =
      some { id := 1, name := "x9", age := 5, password := md5hex "" } := by
  refine ⟨by decide, by decide, by decide⟩

/-- Claim C6 as amended: the name-format check guards only the create path,
before the store is touched — a draft with an invalid name gets BadRequest
and leaves the collection and counter unchanged; the update path performs
no name check at all: whenever the id exists it answers with the updated
record (never BadRequest) and stores the patch's name as given, valid or
not. -/
theorem claim_C6 :
    (∀ (s : StoreState) (b : Option Patient),
      validatePatientName (decodeOrZero b).name = false →
      createPatient s b = (s, Response.badRequest)) ∧
    (∀ (s : StoreState) (id : Int) (b : Option Patient) (p : Patient),
      mapGet s.patients id = some p →
      (updatePatient s id b).2 = Response.okRecord (updateRecord p (decodeOrZero b)) ∧
      (updateRecord p (decodeOrZero b)).name = (decodeOrZero b).name) := by
  constructor
  · intro s b h
    exact createPatient_invalid s b h
  · intro s id b p hp
    rw [updatePatient_some s id b p hp]
    exact ⟨rfl, updateRecord_name p _⟩

/-- Claim C8: any method outside the recognized set of its route answers
405 Method Not Allowed and returns the store state untouched: GET/POST on
the collection route, GET/PUT/DELETE on the item route. -/
theorem claim_C8 :
    (∀ (s : StoreState) (method : String) (b : Option Patient),
      method ≠ "GET" → method ≠ "POST" →
      patientsHandler s method b = (s, Response.methodNotAllowed)) ∧
    (∀ (s : StoreState) (method idStr : String) (b : Option Patient),
      method ≠ "GET" → method ≠ "PUT" → method ≠ "DELETE" →
      patientHandler s method idStr b = (s, Response.methodNotAllowed)) := by
  constructor
  · intro s method b h1 h2
    simp [patientsHandler, h1, h2]
  · intro s method idStr b h1 h2 h3
    simp [patientHandler, h1, h2, h3]

/-- Claim C10: in every state reachable from the empty store, every key of
the collection lies in `[1, counter)` and the record stored under a key
carries that key in its id field. -/
theorem claim_C10 (s : StoreState) (h : Reachable s) :
    ∀ (k : Int) (p : Patient), mapGet s.patients k = some p →
      1 ≤ k ∧ k < s.counter ∧ p.id = k := by
  intro k p hk
  exact (reachable_storeInv s h).2.2 (k, p) (mapGet_mem _ _ _ hk)

set_option maxRecDepth 100000 in
/-- Witness for claim C10 at a concrete reachable state: the store after
one Create, looked up at key 1. -/
theorem claim_C10_witness :
    1 ≤ (1 : Int) ∧ (1 : Int) < (runOps initState [Op.create (some annDraft)]).counter ∧
    ({ id := 1, name := "Ann Lee", age := 30, password := md5hex "" } : Patient).id = 1 :=
  claim_C10 (runOps initState [Op.create (some annDraft)])
    ⟨[Op.create (some annDraft)], rfl⟩ 1
    { id := 1, name := "Ann Lee", age := 30, password := md5hex "" } (by decide)

/-- In a reachable state, Get, Update and Delete at an id the counter never
issued (below 1 or not below the counter) all answer NotFound and return
the state untouched. -/
theorem notFound_of_neverIssued (s : StoreState) (id : Int) (b : Option Patient)
    (hr : Reachable s) (hid : id < 1 ∨ s.counter ≤ id) :
    getPatient s id = (s, Response.notFound) ∧
    updatePatient s id b = (s, Response.notFound) ∧
    deletePatient s id = (s, Response.notFound) := by
  have hinv := reachable_storeInv s hr
  have hnone : mapGet s.patients id = none := by
    refine mapGet_eq_none _ _ ?_
    intro kp hkp
    have := hinv.2.2 kp hkp
    omega
  exact ⟨by simp [getPatient, hnone], updatePatient_none s id b hnone,
    deletePatient_none s id hnone⟩

/-- Claim C3: ids the counter never issued (0 included, and anything at or
above the current counter) make Get, Update and Delete answer NotFound
with the store unchanged; a path identity `strconv.Atoi` cannot parse
resolves to 0, so the dispatcher answers NotFound instead of crashing. -/
theorem claim_C3 :
    (∀ (s : StoreState) (id : Int) (b : Option Patient), Reachable s →
      (id < 1 ∨ s.counter ≤ id) →
      getPatient s id = (s, Response.notFound) ∧
      updatePatient s id b = (s, Response.notFound) ∧
      deletePatient s id = (s, Response.notFound)) ∧
    (∀ str : String, isNumericString str = false → atoi str = 0) ∧
    (∀ (s : StoreState) (method idStr : String) (b : Option Patient), Reachable s →
      isNumericString idStr = false →
      (method = "GET" ∨ method = "PUT" ∨ method = "DELETE") →
      patientHandler s method idStr b = (s, Response.notFound)) := by
  refine ⟨?_, ?_, ?_⟩
  · intro s id b hr hid
    exact notFound_of_neverIssued s id b hr hid
  · intro str h
    simp [atoi, h]
  · intro s method idStr b hr hnum hm
    have hid : atoi idStr = 0 := by simp [atoi, hnum]
    have hnf := notFound_of_neverIssued s 0 b hr (Or.inl (by omega))
    rcases hm with hm | hm | hm <;> subst hm
    · rw [show patientHandler s "GET" idStr b = getPatient s (atoi idStr) from rfl,
        hid]
      exact hnf.1
    · rw [show patientHandler s "PUT" idStr b = updatePatient s (atoi idStr) b from rfl,
        hid]
      exact hnf.2.1
    · rw [show patientHandler s "DELETE" idStr b = deletePatient s (atoi idStr) from rfl,
        hid]
      exact hnf.2.2

/-- Claim C1: Create ignores any caller-supplied id, assigns the counter as
the new record's id, stores exactly the returned record under that id and
increments the counter; assigned ids start at 1, grow strictly across
successive Creates, are unique among stored records, and an id once issued
(in particular one whose record was deleted) is never assigned again. -/
theorem claim_C1 :
    (∀ (s : StoreState) (d : Patient), validatePatientName d.name = true →
      (createPatient s (some d)).2 =
        Response.okRecord
          { id := s.counter, name := d.name, age := d.age,
            password := md5hex d.password } ∧
      mapGet (createPatient s (some d)).1.patients s.counter =
        some { id := s.counter, name := d.name, age := d.age,
               password := md5hex d.password } ∧
      (createPatient s (some d)).1.counter = s.counter + 1) ∧
    (∀ (b : Option Patient) (r : Patient),
      (createPatient initState b).2 = Response.okRecord r → r.id = 1) ∧
    (∀ (s : StoreState) (b : Option Patient) (r : Patient), Reachable s →
      (createPatient s b).2 = Response.okRecord r → 1 ≤ r.id) ∧
    (∀ (s : StoreState) (b b2 : Option Patient) (r r2 : Patient) (ops : List Op),
      (createPatient s b).2 = Response.okRecord r →
      (createPatient (runOps (createPatient s b).1 ops) b2).2 = Response.okRecord r2 →
      r.id < r2.id) ∧
    (∀ s : StoreState, Reachable s → ∀ (k1 k2 : Int) (p1 p2 : Patient),
      mapGet s.patients k1 = some p1 → mapGet s.patients k2 = some p2 →
      p1.id = p2.id → k1 = k2) ∧
    (∀ (s : StoreState) (k : Int) (p : Patient) (ops : List Op)
      (b : Option Patient) (r : Patient), Reachable s →
      mapGet s.patients k = some p →
      (createPatient (runOps s ops) b).2 = Response.okRecord r → k < r.id) := by
  refine ⟨?_, ?_, ?_, ?_, ?_, ?_⟩
  · intro s d hv
    rw [createPatient_valid s (some d) hv]
    dsimp only [decodeOrZero]
    exact ⟨rfl, mapGet_mapSet_self _ _ _, rfl⟩
  · intro b r h
    exact createPatient_id initState b r h
  · intro s b r hr h
    have hid := createPatient_id s b r h
    have hinv := reachable_storeInv s hr
    rw [hid]
    exact hinv.1
  · intro s b b2 r r2 ops h1 h2
    have hid1 := createPatient_id s b r h1
    have hc := createPatient_counter s b r h1
    have hid2 := createPatient_id _ b2 r2 h2
    have hle := counter_le_runOps ops (createPatient s b).1
    omega
  · intro s hr k1 k2 p1 p2 h1 h2 he
    have hinv := reachable_storeInv s hr
    have e1 := (hinv.2.2 _ (mapGet_mem _ _ _ h1)).2.2
    have e2 := (hinv.2.2 _ (mapGet_mem _ _ _ h2)).2.2
    dsimp only at e1 e2
    omega
  · intro s k p ops b r hr hk h
    have hinv := reachable_storeInv s hr
    have hkc := (hinv.2.2 _ (mapGet_mem _ _ _ hk)).2.1
    have hle := counter_le_runOps ops s
    have hid := createPatient_id _ b r h
    dsimp only at hkc
    omega

set_option maxRecDepth 100000 in
/-- Claim C7: from the empty store, Create(Ann Lee, 30) returns id 1,
Create(Bo Kim, 41) returns id 2, Delete(1) succeeds, List() then holds
exactly the one record with id 2, name Bo Kim, age 41, and Get(1) answers
NotFound. -/
theorem claim_C7 :
    (createPatient initState (some annDraft)).2 =
      Response.okRecord { id := 1, name := "Ann Lee", age := 30, password := md5hex "" } ∧
    (createPatient scenarioS1 (some boDraft)).2 =
      Response.okRecord { id := 2, name := "Bo Kim", age := 41, password := md5hex "" } ∧
    (deletePatient scenarioS2 1).2 = Response.noContent ∧
    (getPatients scenarioS3).2 =
      Response.okList [{ id := 2, name := "Bo Kim", age := 41, password := md5hex "" }] ∧
    (getPatient scenarioS3 1).2 = Response.notFound := by
  refine ⟨?_, ?_, ?_, ?_, ?_⟩ <;> rfl

/-- Every list position (or the default) read by `List.getD` is an element
of the list or the default. -/
theorem getD_mem_or {α : Type} (l : List α) (n : Nat) (d : α) :
    List.getD l n d ∈ l ∨ List.getD l n d = d := by
  induction l generalizing n with
  | nil =>
    right
    simp [List.getD]
  | cons x rest ih =>
    cases n with
    | zero =>
      left
      simp
    | succ m =>
      rcases ih m with h | h
      · left
        simp only [List.getD_cons_succ]
        exact List.mem_cons_of_mem _ h
      · right
        simp only [List.getD_cons_succ]
        exact h

/-- Every output of `hexDigit` is a lower-case hexadecimal digit. -/
theorem hexDigit_mem (n : Nat) : hexDigit n ∈ hexLowerChars := by
  unfold hexDigit
  rcases getD_mem_or hexLowerChars n '0' with h | h
  · exact h
  · rw [h]
    decide

/-- `leBytes` produces exactly the requested number of bytes. -/
theorem leBytes_length (n k : Nat) : (leBytes n k).length = k := by
  induction k generalizing n with
  | zero => rfl
  | succ m ih => simp [leBytes, ih]

/-- The MD5 digest is sixteen bytes. -/
theorem md5Sum_length (msg : List Nat) : (md5Sum msg).length = 16 := by
  unfold md5Sum
  simp [leBytes_length]

/-- Length of the flattened two-digit groups of the hex encoding. -/
theorem hexPairs_length (bs : List Nat) :
    ((bs.map (fun b => [hexDigit (b / 16), hexDigit (b % 16)])).flatten).length =
      2 * bs.length := by
  induction bs with
  | nil => rfl
  | cons b rest ih =>
    simp only [List.map_cons, List.flatten_cons, List.length_append, ih,
      List.length_cons, List.length_nil]
    omega

/-- The hex encoding of the MD5 digest has 32 characters. -/
theorem md5hex_length (str : String) : (md5hex str).length = 32 := by
  show ((List.map (fun b => [hexDigit (b / 16), hexDigit (b % 16)])
    (md5Sum (strBytes str))).flatten).length = 32
  rw [hexPairs_length, md5Sum_length]

/-- Every character of the hex encoding is a lower-case hex digit. -/
theorem md5hex_chars (str : String) :
    ∀ c ∈ (md5hex str).data, c ∈ hexLowerChars := by
  intro c hc
  have hc2 : c ∈ (List.map (fun b => [hexDigit (b / 16), hexDigit (b % 16)])
      (md5Sum (strBytes str))).flatten := hc
  rcases List.mem_flatten.mp hc2 with ⟨sub, hsub, hcsub⟩
  rcases List.mem_map.mp hsub with ⟨b, _, rfl⟩
  simp only [List.mem_cons, List.mem_singleton, List.not_mem_nil, or_false] at hcsub
  rcases hcsub with rfl | rfl <;> exact hexDigit_mem _

/-- Claim C9: the raw secret is never stored or returned.  A successful
Create stores and returns the MD5-hex digest of the draft's secret; an
Update whose patch secret is non-empty stores and returns the digest of
the patch's secret; every digest is a 32-character string of lower-case
hexadecimal digits, so it never equals a supplied secret of any other
length. -/
theorem claim_C9 :
    (∀ (s : StoreState) (d r : Patient),
      (createPatient s (some d)).2 = Response.okRecord r →
      r.password = md5hex d.password) ∧
    (∀ (s : StoreState) (id : Int) (b : Option Patient) (p : Patient),
      mapGet s.patients id = some p → (decodeOrZero b).password ≠ "" →
      (updatePatient s id b).2 =
        Response.okRecord (updateRecord p (decodeOrZero b)) ∧
      (updateRecord p (decodeOrZero b)).password =
        md5hex (decodeOrZero b).password) ∧
    (∀ str : String, (md5hex str).length = 32 ∧
      ∀ c ∈ (md5hex str).data, c ∈ hexLowerChars) ∧
    (∀ str : String, str.length ≠ 32 → md5hex str ≠ str) := by
  refine ⟨?_, ?_, ?_, ?_⟩
  · intro s d r h
    by_cases hv : validatePatientName (decodeOrZero (some d)).name = true
    · rw [createPatient_valid _ _ hv] at h
      dsimp only at h
      injection h with h2
      rw [← h2]
      rfl
    · simp only [Bool.not_eq_true] at hv
      rw [createPatient_invalid _ _ hv] at h
      exact Response.noConfusion h
  · intro s id b p hp hpw
    rw [updatePatient_some s id b p hp]
    exact ⟨rfl, updateRecord_password_nonempty p _ hpw⟩
  · intro str
    exact ⟨md5hex_length str, md5hex_chars str⟩
  · intro str h he
    have := md5hex_length str
    rw [he] at this
    exact h this

/-- Counterexample to claim C4: `updatePatient` mutates the shared
collection without ever acquiring the mutex — its field overwrites are not
serialized through the exclusion mechanism, whether or not the patch
carries a password. -/
theorem claim_C4_cex :
    writesLocked (updateActions false) = false ∧
    writesLocked (updateActions true) = false := by
  decide

/-- Claim C4 as amended: Create's read-counter/assign/increment/insert
sequence and Delete's removal run entirely inside the single mutex, and
two interleaved Creates that both complete always obtain distinct ids;
Update's field overwrites, however, run without acquiring the mutex. -/
theorem claim_C4 :
    writesLocked createActions = true ∧
    writesLocked deleteActions = true ∧
    (∀ b : Bool, writesLocked (updateActions b) = false) ∧
    (∀ (d : Bool → Patient) (s0 : StoreState) (c : CState),
      CReach d (cInit s0) c → c.pc true = 5 → c.pc false = 5 →
      c.localId true ≠ c.localId false) := by
  refine ⟨by decide, by decide, by decide, ?_⟩
  intro d s0 c h h1 h2
  exact (cInv_reach (cInv_cInit s0) h).2.2.2.1 true false (by decide)
    (by omega) (by omega)
